import Mathlib

/-!
Verification of the report parser `scripts/parse_ocmr.py` of the
NavelPrediction repository.

The Python source is embedded shallowly: strings are handled as `List Char`
(`String.data`), Python floats are modelled exactly as rationals plus the
non-finite values (`PyFloat`), and the dynamically typed record values as the
tagged union `Val` (null / float / string).  The specific regular expressions
of the source (`val_pattern`, `seq_pattern`, the keyword pattern
`\b...\b`, the two date patterns and the date-label pattern) are compiled by
hand into deterministic scanners that follow the leftmost-match,
ordered-alternation, greedy-quantifier semantics of Python's `re` module on
exactly those patterns.  Recursions that advance by a computed amount use an
explicit fuel argument bounded by the input length so that every definition
reduces inside the kernel.
-/

/-! ## Basic character classes (ASCII fragment of Python's semantics) -/

/-- The characters stripped by Python's `str.strip()` / `float()` and matched
by the regex class `\s` (ASCII fragment). -/
def isPySpace (c : Char) : Bool :=
  c = ' ' || c = '\t' || c = '\n' || c = '\r' || c = '\x0b' || c = '\x0c'

/-- Python's regex word character `\w` (ASCII fragment), used for `\b`. -/
def isWordChar (c : Char) : Bool :=
  c.isAlpha || c.isDigit || c = '_'

/-- Word-ness of an optional character; `none` (outside the string) counts as
a non-word position, as in `re`'s `\b`. -/
def isWordOpt : Option Char → Bool
  | none => false
  | some c => isWordChar c

abbrev LC := List Char

/-- Case-insensitive character comparison (ASCII, as used by `re.IGNORECASE`
on the patterns of this file). -/
def ciCharEq (a b : Char) : Bool := a.toLower = b.toLower

/-- `pat` is a case-insensitive prefix of `l`. -/
def ciPrefixOf : LC → LC → Bool
  | [], _ => true
  | _ :: _, [] => false
  | a :: pa, b :: lb => ciCharEq a b && ciPrefixOf pa lb

/-- `pat` equals `l` up to ASCII case. -/
def ciEqList (pat l : LC) : Bool := ciPrefixOf pat l && pat.length = l.length

/-- Python `str.strip()` on a character list. -/
def pyStripLC (l : LC) : LC :=
  ((l.dropWhile isPySpace).reverse.dropWhile isPySpace).reverse

/-- Python `str.upper()` (ASCII fragment). -/
def pyUpperLC (l : LC) : LC := l.map Char.toUpper

/-- `val.replace(',', '')` — removal of every comma. -/
def removeCommasLC (l : LC) : LC := l.filter (fun c => !(c = ','))

/-- Numeric value of a digit character. -/
def digitVal (c : Char) : Nat := c.toNat - 48

/-! ## Python floats

`float()` values are modelled exactly: finite values as rationals (every
decimal literal is a rational; the claims under check only compare values
that are exactly representable), plus `inf`, `-inf` and `nan`. -/

inductive PyFloat where
  | fin (q : ℚ)
  | pinf
  | ninf
  | nan
deriving DecidableEq, Repr

inductive Val where
  | null
  | float (f : PyFloat)
  | str (s : String)
deriving DecidableEq, Repr

/-- Digit run with single underscores allowed between digits (Python 3
numeric-literal syntax accepted by `float()`).  Returns accumulated value,
number of digits consumed, and the rest.  A leading or doubled underscore
stops the run (and is left in the rest, failing the caller). -/
def digitsUAux (acc cnt : Nat) : LC → Nat × Nat × LC
  | [] => (acc, cnt, [])
  | c :: r =>
    if c.isDigit then digitsUAux (acc * 10 + digitVal c) (cnt + 1) r
    else if c = '_' then
      match r with
      | [] => (acc, cnt, ['_'])
      | d :: r' =>
        if d.isDigit then digitsUAux (acc * 10 + digitVal d) (cnt + 1) r'
        else (acc, cnt, c :: d :: r')
    else (acc, cnt, c :: r)

/-- Digit run starting at the head (empty when the head is not a digit). -/
def digitsU (l : LC) : Nat × Nat × LC :=
  match l with
  | c :: r => if c.isDigit then digitsUAux (digitVal c) 1 r else (0, 0, l)
  | [] => (0, 0, [])

/-- Assemble the rational value of a parsed decimal literal. -/
def pyFloatOfParts (neg : Bool) (ip fp fcnt : Nat) (expNeg : Bool) (e : Nat) : ℚ :=
  let base : ℚ := (ip : ℚ) + (fp : ℚ) / ((10 : ℚ) ^ fcnt)
  let scaled : ℚ := if expNeg then base / (10 : ℚ) ^ e else base * (10 : ℚ) ^ e
  if neg then -scaled else scaled

/-- The body of `float()` after the optional sign: `inf`/`infinity`/`nan`
(case-insensitively) or a decimal literal `digits [. digits] [e[±]digits]`
with at least one mantissa digit and nothing left over. -/
def pyFloatUnsigned (neg : Bool) (l : LC) : Option PyFloat :=
  if ciEqList "infinity".data l || ciEqList "inf".data l then
    some (if neg then PyFloat.ninf else PyFloat.pinf)
  else if ciEqList "nan".data l then some PyFloat.nan
  else
    let (ip, icnt, r1) := digitsU l
    let dotted := match r1 with
      | '.' :: r => (true, r)
      | _ => (false, r1)
    let (fp, fcnt, r3) :=
      if dotted.1 then digitsU dotted.2 else (0, 0, dotted.2)
    if icnt + fcnt = 0 then none
    else
      match r3 with
      | [] => some (PyFloat.fin (pyFloatOfParts neg ip fp fcnt false 0))
      | c :: r4 =>
        if c = 'e' || c = 'E' then
          let signed := match r4 with
            | '+' :: r => (false, r)
            | '-' :: r => (true, r)
            | _ => (false, r4)
          let (ev, ecnt, r6) := digitsU signed.2
          if 1 ≤ ecnt && r6 = ([] : LC) then
            some (PyFloat.fin (pyFloatOfParts neg ip fp fcnt signed.1 ev))
          else none
        else none

/-- Python `float(s)`: surrounding whitespace ignored, optional sign, then
`pyFloatUnsigned`; `none` models the `ValueError` caught by the caller. -/
def pyFloatChars (l0 : LC) : Option PyFloat :=
  let l := pyStripLC l0
  match l with
  | '+' :: r => pyFloatUnsigned false r
  | '-' :: r => pyFloatUnsigned true r
  | r => pyFloatUnsigned false r

/-! ## `parse_value` (lines 6–22 of `parse_ocmr.py`) -/

/-- The literal tokens mapped to `None` (compared after `strip`+ `upper`). -/
def nullTokensU : List LC := ["N/A".data, "N/C".data, "N/I".data, "-".data, "".data]

/-- `parse_value(val)`.  The argument is `None` (`Option.none`) or a string;
the result is `None`, a float, or the stripped original string when float
parsing fails. -/
def parse_value (v : Option String) : Val :=
  match v with
  | none => Val.null
  | some s =>
    if s = "" then Val.null
    else
      let val := pyStripLC s.data
      if nullTokensU.contains (pyUpperLC val) then Val.null
      else if "<".data.isPrefixOf val || "&lt;".data.isPrefixOf val then
        Val.float (PyFloat.fin (1 / 2))
      else
        match pyFloatChars (removeCommasLC val) with
        | some f => Val.float f
        | none => Val.str (String.mk val)

/-! ## The row extractor `extract_row` (lines 132–169)

`val_pattern = r'(?:(?:<|&lt;)\s*)?[\d,\.]+\*?|N/A|N/C|N/I|-'` compiled by
hand: ordered alternation, greedy quantifiers, no backtracking pressure
(nothing follows the pattern in any of its uses). -/

/-- Length of the maximal run of characters satisfying `p` at the head. -/
def countWhile (p : Char → Bool) (l : LC) : Nat := (l.takeWhile p).length

/-- The regex character class `[\d,\.]`. -/
def valClass (c : Char) : Bool := c.isDigit || c = ',' || c = '.'

/-- Length consumed by the optional trailing `\*?`. -/
def starLen : LC → Nat
  | '*' :: _ => 1
  | _ => 0

/-- Length of the match of `val_pattern` at the head of `l`, `none` when no
alternative matches here.  Every successful match has length at least 1. -/
def matchValAt (l : LC) : Option Nat :=
  match l with
  | [] => none
  | c :: r =>
    if c = '<' then
      let w := countWhile isPySpace r
      let d := countWhile valClass (r.drop w)
      if d = 0 then none
      else some (1 + w + d + starLen ((r.drop w).drop d))
    else if c = '&' then
      if "lt;".data.isPrefixOf r then
        let r3 := r.drop 3
        let w := countWhile isPySpace r3
        let d := countWhile valClass (r3.drop w)
        if d = 0 then none
        else some (4 + w + d + starLen ((r3.drop w).drop d))
      else none
    else if valClass c then
      let d := 1 + countWhile valClass r
      some (d + starLen (l.drop d))
    else if "N/A".data.isPrefixOf l || "N/C".data.isPrefixOf l
         || "N/I".data.isPrefixOf l then some 3
    else if c = '-' then some 1
    else none

/-- `re.findall(val_pattern, s)`: leftmost matches, scanned left to right,
resuming after each match.  The fuel is bounded by the input length; every
match consumes at least one character. -/
def findallValAux (fuel : Nat) (l : LC) : List LC :=
  match fuel with
  | 0 => []
  | fuel + 1 =>
    match l with
    | [] => []
    | c :: r =>
      match matchValAt (c :: r) with
      | some n => (c :: r).take n :: findallValAux fuel ((c :: r).drop n)
      | none => findallValAux fuel r

def findallVal (l : LC) : List LC := findallValAux (l.length + 1) l

/-- Index of the leftmost position where `val_pattern` matches. -/
def firstValIdx : LC → Option Nat
  | [] => none
  | c :: r =>
    if (matchValAt (c :: r)).isSome then some 0
    else (firstValIdx r).map (· + 1)

/-- Greedy extension of `(?:\s*(?:VAL))+` from a position where a value
matches: repeatedly consume the value match, then whitespace, as long as
another value follows the whitespace (a failed iteration leaves its
whitespace unconsumed, as the backtracking engine does). -/
def seqExtendAux (fuel : Nat) (l : LC) : Nat :=
  match fuel with
  | 0 => 0
  | fuel + 1 =>
    match matchValAt l with
    | none => 0
    | some n =>
      let r := l.drop n
      let w := countWhile isPySpace r
      match matchValAt (r.drop w) with
      | some _ => n + w + seqExtendAux fuel (r.drop w)
      | none => n

/-- `re.search(seq_pattern, post)` where
`seq_pattern = "((?:\\s*(?:VAL))+)"`: the leftmost match starts at the head
of the whitespace run immediately preceding the leftmost value token and
extends greedily; the captured group (returned here) is that whole slice. -/
def seqSearch (post : LC) : Option LC :=
  match firstValIdx post with
  | none => none
  | some j =>
    let w := ((post.take j).reverse.takeWhile isPySpace).length
    let len := seqExtendAux (post.length + 1) (post.drop j)
    some ((post.drop (j - w)).take (w + len))

/-- `re.search(rf"\b{re.escape(kw)}\b", text, re.IGNORECASE)`, returning the
end position of the leftmost match.  `\b` holds where word-ness changes
between adjacent positions (string ends count as non-word). -/
def kwFindAux (kw : LC) (prev : Option Char) (l : LC) (idx : Nat) : Option Nat :=
  match l with
  | [] => none
  | c :: r =>
    let here := ciPrefixOf kw (c :: r)
      && (isWordOpt prev != isWordChar c)
      && (isWordOpt (((c :: r).take kw.length).getLast?)
            != isWordOpt ((c :: r).drop kw.length).head?)
    if here then some (idx + kw.length) else kwFindAux kw (some c) r (idx + 1)

def kwFind (kw text : LC) : Option Nat := kwFindAux kw none text 0

/-- Python `vals[-count:]` (the whole list when `count = 0` or
`count ≥ len(vals)`). -/
def pyLastSlice (count : Nat) (l : List α) : List α :=
  if count = 0 then l else l.drop (l.length - count)

/-- One iteration of the keyword loop body of `extract_row`: the row of raw
value strings produced by keyword `kw`, or `none` when the keyword does not
match, no value sequence follows it, or fewer than `count` values are found
(in which case the Python loop falls through to the next keyword). -/
def attemptKeyword (count : Nat) (searchText : LC) (kw : String) : Option (List String) :=
  match kwFind kw.data searchText with
  | none => none
  | some e =>
    match seqSearch (searchText.drop e) with
    | none => none
    | some valsStr =>
      if count ≤ ((findallVal valsStr).map String.mk).length then
        some (pyLastSlice count ((findallVal valsStr).map String.mk))
      else none

/-- `extract_row(keywords, count)` over the post-block text. -/
def extract_row (keywords : List String) (count : Nat) (searchText : LC) :
    List (Option String) :=
  match keywords with
  | [] => List.replicate count none
  | kw :: rest =>
    match attemptKeyword count searchText kw with
    | some vals => vals.map some
    | none => extract_row rest count searchText

/-! ## Record assembly (lines 171–221) -/

def oilRunningKeywords : List String := ["Oil Running Hrs", "Oil Running Hours"]

def totalHrsKeywords : List String := ["T/R/H of Machinery", "Total Running Hours"]

def visc40Keywords : List String :=
  ["Viscosity@ 40oC", "Viscosity @ 40oC", "Viscosity  @ 40oC", "ViViscosity@ 40oC"]

def visc100Keywords : List String :=
  ["Viscosity@ 100oC", "Viscosity @ 100oC", "Viscosity  @ 100oC"]

def viscIndexKeywords : List String := ["Viscosity Index"]

def tbnKeywords : List String := ["Total Base No.", "TB No."]

def waterKeywords : List String := ["Water content"]

def flashKeywords : List String := ["Flash Point"]

def feKeywords : List String := ["Fe", "Iron"]

def crKeywords : List String := ["Cr", "Chromium"]

def siKeywords : List String := ["Si", "Silicon"]

def alKeywords : List String := ["Al", "Aluminum"]

def pbKeywords : List String := ["Pb", "Lead"]

def cuKeywords : List String := ["Cu", "Copper"]

def snKeywords : List String := ["Sn", "Tin"]

def niKeywords : List String := ["Ni", "Nickel"]

structure Record where
  sample_id : String
  oil_hrs : Val
  total_hrs : Val
  viscosity_40 : Val
  viscosity_100 : Val
  viscosity_index : Val
  tbn : Val
  water_content : Val
  flash_point : Val
  fe_ppm : Val
  cr_ppm : Val
  si_ppm : Val
  al_ppm : Val
  pb_ppm : Val
  cu_ppm : Val
  sn_ppm : Val
  ni_ppm : Val
  oil_refill_start : Nat
  oil_topup : Nat
  health_score_lag_1 : ℚ
  ml_raw_score : ℚ
  gemini_final_score : ℚ
  status : String
  trend : String
  recommendation : String
  confidence : String
  created_at : String
  id : Option Nat
deriving DecidableEq, Repr

/-- A raw row entry stored without normalization: Python keeps `None` or the
extracted string itself (this is what line 200 does with `water[i]`). -/
def rawVal : Option String → Val
  | none => Val.null
  | some s => Val.str s

/-- One block's records (the loop of lines 191–221): one extractor run per
tracked parameter, then one record per sample index, all parameters except
`water_content` passed through `parse_value`. -/
def parseBlock (created_at_val : String) (sample_ids : List String)
    (searchText : LC) : List Record :=
  let count := sample_ids.length
  let oil_hrs := extract_row oilRunningKeywords count searchText
  let total_hrs := extract_row totalHrsKeywords count searchText
  let visc_40 := extract_row visc40Keywords count searchText
  let visc_100 := extract_row visc100Keywords count searchText
  let visc_index := extract_row viscIndexKeywords count searchText
  let tbn := extract_row tbnKeywords count searchText
  let water := extract_row waterKeywords count searchText
  let flash := extract_row flashKeywords count searchText
  let fe := extract_row feKeywords count searchText
  let cr := extract_row crKeywords count searchText
  let si := extract_row siKeywords count searchText
  let al := extract_row alKeywords count searchText
  let pb := extract_row pbKeywords count searchText
  let cu := extract_row cuKeywords count searchText
  let sn := extract_row snKeywords count searchText
  let ni := extract_row niKeywords count searchText
  (List.range count).map (fun i =>
    { sample_id := sample_ids.getD i ""
      oil_hrs := parse_value (oil_hrs.getD i none)
      total_hrs := parse_value (total_hrs.getD i none)
      viscosity_40 := parse_value (visc_40.getD i none)
      viscosity_100 := parse_value (visc_100.getD i none)
      viscosity_index := parse_value (visc_index.getD i none)
      tbn := parse_value (tbn.getD i none)
      water_content := rawVal (water.getD i none)
      flash_point := parse_value (flash.getD i none)
      fe_ppm := parse_value (fe.getD i none)
      cr_ppm := parse_value (cr.getD i none)
      si_ppm := parse_value (si.getD i none)
      al_ppm := parse_value (al.getD i none)
      pb_ppm := parse_value (pb.getD i none)
      cu_ppm := parse_value (cu.getD i none)
      sn_ppm := parse_value (sn.getD i none)
      ni_ppm := parse_value (ni.getD i none)
      oil_refill_start := 0
      oil_topup := 0
      health_score_lag_1 := 1 / 10
      ml_raw_score := 1 / 10
      gemini_final_score := 1 / 10
      status := "OPTIMAL_CONDITION"
      trend := "STABLE"
      recommendation := "Maintain current operations"
      confidence := "historical"
      created_at := created_at_val
      id := none })

/-! ## Category classifier (lines 109–120) -/

/-- Index of the leftmost occurrence of `pat` as a sublist of `l`
(Python's `in` / `str.find`). -/
def findSub (pat : LC) : LC → Option Nat
  | [] => if pat.isEmpty then some 0 else none
  | c :: r =>
    if pat.isPrefixOf (c :: r) then some 0
    else (findSub pat r).map (· + 1)

/-- Python's substring containment `pat in l`. -/
def containsSub (pat l : LC) : Bool := (findSub pat l).isSome

/-- Python `l.split(pat)[-1]`: the suffix after the last separator occurrence
of the leftmost non-overlapping decomposition (`l` itself when `pat` does not
occur).  Fuel is bounded by the length; each step consumes at least
`pat.length ≥ 1` characters. -/
def pySplitLastAux (fuel : Nat) (pat l : LC) : LC :=
  match fuel with
  | 0 => l
  | fuel + 1 =>
    match findSub pat l with
    | none => l
    | some i => pySplitLastAux fuel pat (l.drop (i + pat.length))

def pySplitLast (pat l : LC) : LC :=
  if pat.isEmpty then l else pySplitLastAux (l.length + 1) pat l

/-- The classifier's `if/elif` chain on the upper-cased joined window
(lines 112–120), verbatim from the source. -/
def codeCategory (pre : LC) : String :=
  if containsSub "PORT".data pre
      && !containsSub "STBD".data (pySplitLast "PORT".data pre) then "Port"
  else if containsSub "STBD".data pre || containsSub "STARBOARD".data pre then "Stbd"
  else if containsSub "NO 01".data pre || containsSub "NO.01".data pre
      || containsSub "NO. 01".data pre then "No1"
  else if containsSub "NO 02".data pre || containsSub "NO.02".data pre
      || containsSub "NO. 02".data pre then "No2"
  else "Default"

/-- The up-to-500-token window preceding token position `b`, joined with
single spaces and upper-cased: `" ".join(tokens[max(0, b-500):b]).upper()`. -/
def preWindow (tokens : List String) (b : Nat) : LC :=
  pyUpperLC (String.intercalate " " ((tokens.take b).drop (b - 500))).data

/-- Category of the block whose first token is at position `b`. -/
def classifyBlock (tokens : List String) (b : Nat) : String :=
  codeCategory (preWindow tokens b)

/-! Specification-side reformulation of the classifier, written from the
spec's words in terms of occurrence positions instead of `split`/`find`:
used only to compare against `codeCategory`. -/

/-- `pat` occurs in `s` at position `i`. -/
def occAt (s pat : LC) (i : Nat) : Bool := pat.isPrefixOf (s.drop i)

/-- All occurrence positions of `pat` in `s`. -/
def occPositions (s pat : LC) : List Nat :=
  (List.range (s.length + 1)).filter (occAt s pat)

/-- Spec-side Port test: a "PORT" occurrence exists and every "STBD"
occurrence starts before the end of some "PORT" occurrence (equivalently,
before the end of the last one — no "STBD" after the last "PORT"). -/
def specPortTest (s : LC) : Bool :=
  !(occPositions s "PORT".data).isEmpty
    && (occPositions s "STBD".data).all
        (fun j => (occPositions s "PORT".data).any (fun i => j < i + 4))

/-- Spec-side classifier: fixed priority order over occurrence positions. -/
def specCategory (pre : LC) : String :=
  if specPortTest pre then "Port"
  else if !(occPositions pre "STBD".data).isEmpty
      || !(occPositions pre "STARBOARD".data).isEmpty then "Stbd"
  else if !(occPositions pre "NO 01".data).isEmpty
      || !(occPositions pre "NO.01".data).isEmpty
      || !(occPositions pre "NO. 01".data).isEmpty then "No1"
  else if !(occPositions pre "NO 02".data).isEmpty
      || !(occPositions pre "NO.02".data).isEmpty
      || !(occPositions pre "NO. 02".data).isEmpty then "No2"
  else "Default"

/-! ## Header date extraction (lines 36–81) -/

/-- The twelve month abbreviations, in the alternation order of the pattern. -/
def monthAbbrevs : List String :=
  ["Jan", "Feb", "Mar", "Apr", "May", "Jun", "Jul", "Aug", "Sep", "Oct", "Nov", "Dec"]

/-- `month_map` lookup on the lower-cased 3-character prefix, default "01". -/
def monthMap : List (LC × LC) :=
  [("jan".data, "01".data), ("feb".data, "02".data), ("mar".data, "03".data),
   ("apr".data, "04".data), ("may".data, "05".data), ("jun".data, "06".data),
   ("jul".data, "07".data), ("aug".data, "08".data), ("sep".data, "09".data),
   ("oct".data, "10".data), ("nov".data, "11".data), ("dec".data, "12".data)]

def monthLookup (k : LC) : LC :=
  match monthMap.find? (fun p => p.1 = k) with
  | some p => p.2
  | none => "01".data

/-- Python `s.zfill(w)` on digit strings. -/
def zfill (w : Nat) (l : LC) : LC :=
  List.replicate (w - l.length) '0' ++ l

/-- `parse_date_str(day, month, year)` (lines 36–43): 2-digit years prefixed
with "20", month mapped through `month_map`, day zero-filled to width 2,
fixed time suffix. -/
def parse_date_str (day month year : LC) : String :=
  let m := monthLookup ((month.map Char.toLower).take 3)
  let y := if year.length = 2 then '2' :: '0' :: year else year
  String.mk (y ++ "-".data ++ m ++ "-".data ++ zfill 2 day ++ " 10:00:00".data)

structure DateGroups where
  day : LC
  mon : LC
  year : LC
deriving DecidableEq, Repr

/-- Match of `\b(\d{1,2})\s+(Jan|…|Dec)\s+(\d{2,4})\b` (case-insensitive) at
the head of `l`, given the preceding character; returns the groups and the
match length.  Greedy `\d` runs against the following mandatory `\s+`/`\b`
force the digit runs to have length 1–2 (day) and 2–4 (year) exactly. -/
def dateMatchAt (prev : Option Char) (l : LC) : Option (DateGroups × Nat) :=
  if isWordOpt prev then none
  else
    let d := l.takeWhile Char.isDigit
    if d.length = 0 || 3 ≤ d.length then none
    else
      let r1 := l.drop d.length
      let w1 := countWhile isPySpace r1
      if w1 = 0 then none
      else
        let r2 := r1.drop w1
        match monthAbbrevs.find? (fun m => ciPrefixOf m.data r2) with
        | none => none
        | some _ =>
          let mon := r2.take 3
          let r3 := r2.drop 3
          let w2 := countWhile isPySpace r3
          if w2 = 0 then none
          else
            let r4 := r3.drop w2
            let y := r4.takeWhile Char.isDigit
            if y.length < 2 || 5 ≤ y.length then none
            else if isWordOpt (r4.drop y.length).head? then none
            else some (⟨d, mon, y⟩, d.length + w1 + 3 + w2 + y.length)

/-- Leftmost match of the date pattern (`re.search`). -/
def dateSearchAux (prev : Option Char) : LC → Option DateGroups
  | [] => none
  | c :: r =>
    match dateMatchAt prev (c :: r) with
    | some (g, _) => some g
    | none => dateSearchAux (some c) r

def dateSearch (l : LC) : Option DateGroups := dateSearchAux none l

/-- `re.findall` of the date pattern: all leftmost matches, scanning resumes
after each match end. -/
def dateFindAllAux (fuel : Nat) (prev : Option Char) (l : LC) : List DateGroups :=
  match fuel with
  | 0 => []
  | fuel + 1 =>
    match l with
    | [] => []
    | c :: r =>
      match dateMatchAt prev (c :: r) with
      | some (g, n) =>
        g :: dateFindAllAux fuel (((c :: r).take n).getLast? ) ((c :: r).drop n)
      | none => dateFindAllAux fuel (some c) r

def dateFindAll (l : LC) : List DateGroups := dateFindAllAux (l.length + 1) none l

/-- Match of `\b(\d{1,2})\.(\d{1,2})\.(\d{2,4})\b` at the head of `l`. -/
def dotDateMatchAt (prev : Option Char) (l : LC) : Option DateGroups :=
  if isWordOpt prev then none
  else
    let d := l.takeWhile Char.isDigit
    if d.length = 0 || 3 ≤ d.length then none
    else
      match l.drop d.length with
      | '.' :: r1 =>
        let m := r1.takeWhile Char.isDigit
        if m.length = 0 || 3 ≤ m.length then none
        else
          match r1.drop m.length with
          | '.' :: r2 =>
            let y := r2.takeWhile Char.isDigit
            if y.length < 2 || 5 ≤ y.length then none
            else if isWordOpt (r2.drop y.length).head? then none
            else some ⟨d, m, y⟩
          | _ => none
      | _ => none

def dotDateSearchAux (prev : Option Char) : LC → Option DateGroups
  | [] => none
  | c :: r =>
    match dotDateMatchAt prev (c :: r) with
    | some g => some g
    | none => dotDateSearchAux (some c) r

def dotDateSearch (l : LC) : Option DateGroups := dotDateSearchAux none l

/-- End position (within `l`, which starts with a case-insensitive "date")
of the match of `Date\s*(?:of\s+Sampling|sampling)?\s*[:\-]?`: whitespace,
the optional group (first alternative preferred), more whitespace, optional
colon/dash. -/
def dateKwEnd (l : LC) : Nat :=
  let l1 := l.drop 4
  let w1 := countWhile isPySpace l1
  let l2 := l1.drop w1
  let g :=
    if ciPrefixOf "of".data l2 then
      let a := l2.drop 2
      let wa := countWhile isPySpace a
      if 1 ≤ wa && ciPrefixOf "sampling".data (a.drop wa) then some (2 + wa + 8)
      else if ciPrefixOf "sampling".data l2 then some 8
      else none
    else if ciPrefixOf "sampling".data l2 then some 8
    else none
  let gn := g.getD 0
  let l3 := l2.drop gn
  let w2 := countWhile isPySpace l3
  let colon := match l3.drop w2 with
    | ':' :: _ => 1
    | '-' :: _ => 1
    | _ => 0
  4 + w1 + gn + w2 + colon

/-- Leftmost case-insensitive occurrence of "date"; returns the end position
of the full label match (`re.search(..., header, re.IGNORECASE).end()`). -/
def dateKwFindAux (idx : Nat) : LC → Option Nat
  | [] => none
  | c :: r =>
    if ciPrefixOf "date".data (c :: r) then some (idx + dateKwEnd (c :: r))
    else dateKwFindAux (idx + 1) r

def dateKwFind (l : LC) : Option Nat := dateKwFindAux 0 l

/-- Digit-string to number (`int(y)`). -/
def strToNat (l : LC) : Nat := l.foldl (fun n c => n * 10 + digitVal c) 0

/-- The year value used in the fallback scan: 2-digit years widened with
"20" before the `>= 2023` comparison. -/
def widenedYear (y : LC) : Nat :=
  strToNat (if y.length = 2 then '2' :: '0' :: y else y)

/-- The `DD.MM.YYYY` branch output string (lines 65–69). -/
def dotDateFormat (g : DateGroups) : String :=
  let y := if g.year.length = 2 then '2' :: '0' :: g.year else g.year
  String.mk (y ++ "-".data ++ zfill 2 g.mon ++ "-".data ++ zfill 2 g.day ++ " 10:00:00".data)

/-- The fallback scan (lines 72–81): first date in the header whose widened
year is at least 2023, else the fixed default. -/
def fallbackDate (header : LC) : String :=
  match (dateFindAll header).find? (fun g => decide (2023 ≤ widenedYear g.year)) with
  | some g => parse_date_str g.day g.mon g.year
  | none => "2025-01-01 10:00:00"

/-- `created_at_val` for a document (lines 45–81): the labeled-date search on
the first 1000 characters, then the fallback scan. -/
def extractCreatedAt (content : String) : String :=
  let header := content.data.take 1000
  match dateKwFind header with
  | some e =>
    let post := header.drop e
    match dateSearch post with
    | some g => parse_date_str g.day g.mon g.year
    | none =>
      match dotDateSearch post with
      | some g => dotDateFormat g
      | none => fallbackDate header
  | none => fallbackDate header

/-! ## Output serialization `process_file` (lines 225–266) -/

/-- Insertion into a Python dict modelled as an insertion-ordered
association list: an existing key keeps its position and gets the new
value, a new key is appended. -/
def dictInsert (m : List (String × Record)) (k : String) (v : Record) :
    List (String × Record) :=
  if m.any (fun p => p.1 = k) then
    m.map (fun p => if p.1 = k then (k, v) else p)
  else m ++ [(k, v)]

/-- `unique_records` (lines 246–250): records keyed by `sample_id`, falsy
(empty) identifiers skipped, later records overwriting earlier ones. -/
def buildDict (rs : List Record) : List (String × Record) :=
  rs.foldl (fun m r => if r.sample_id = "" then m else dictInsert m r.sample_id r) []

/-- `list(unique_records.values())`. -/
def uniqueBySid (rs : List Record) : List Record := (buildDict rs).map Prod.snd

/-- `get_sort_key` (lines 254–258): the value itself when it is a number,
otherwise 0. -/
def get_sort_key (r : Record) : PyFloat :=
  match r.total_hrs with
  | Val.float f => f
  | _ => PyFloat.fin 0

/-- Python float `<` on sort keys (`nan` incomparable). -/
def pfLT : PyFloat → PyFloat → Bool
  | PyFloat.fin a, PyFloat.fin b => decide (a < b)
  | PyFloat.fin _, PyFloat.pinf => true
  | PyFloat.ninf, PyFloat.fin _ => true
  | PyFloat.ninf, PyFloat.pinf => true
  | _, _ => false

/-- Stable insertion placing `a` after every element whose key is not
greater (Python's stable `list.sort`, restricted to the total-preorder keys
the pipeline produces). -/
def sortInsert (a : Record) : List Record → List Record
  | [] => [a]
  | b :: l =>
    if pfLT (get_sort_key a) (get_sort_key b) then a :: b :: l
    else b :: sortInsert a l

/-- `records.sort(key=get_sort_key)`: stable sort by the key. -/
def pySort (l : List Record) : List Record :=
  l.foldl (fun acc r => sortInsert r acc) []

/-- The id-assignment loop (lines 260–261), `rec['id'] = i + 1`. -/
def assignIds (i : Nat) : List Record → List Record
  | [] => []
  | r :: rest => { r with id := some (i + 1) } :: assignIds (i + 1) rest

/-- The per-category serialization of `process_file` (lines 244–261):
dedup by `sample_id` (last wins), stable sort by total running hours,
fresh ids from 1. -/
def serializeCategory (rs : List Record) : List Record :=
  assignIds 0 (pySort (uniqueBySid rs))

/-- Association-list model of `output_map.get(k)`. -/
def pyGet (m : List (String × String)) (k : String) : Option String :=
  match m.find? (fun p => p.1 = k) with
  | some p => some p.2
  | none => none

/-- Python truthiness of `output_map.get(...)`: `None` and `""` are falsy. -/
def pyTruthy : Option String → Bool
  | none => false
  | some s => !(s = "")

/-- Target-file resolution of lines 236–241: the category's mapping when
truthy, else the `Default` mapping when truthy, else no write. -/
def routeTarget (outputMap : List (String × String)) (category : String) :
    Option String :=
  let t0 := pyGet outputMap category
  let t1 := if pyTruthy t0 then t0 else pyGet outputMap "Default"
  if pyTruthy t1 then t1 else none

/-- One iteration of the write/warn loop of `process_file` (lines 235–266):
either a `(target file, serialized records)` write or a warning naming the
dropped category is appended. -/
def processStep (outputMap : List (String × String))
    (acc : List (String × List Record) × List String)
    (p : String × List Record) :
    List (String × List Record) × List String :=
  match routeTarget outputMap p.1 with
  | some f => (acc.1 ++ [(f, serializeCategory p.2)], acc.2)
  | none => (acc.1, acc.2 ++ [p.1])

/-- The write/warn loop of `process_file` over the categorized records, in
dict order. -/
def processCategorized (outputMap : List (String × String))
    (cats : List (String × List Record)) :
    List (String × List Record) × List String :=
  cats.foldl (processStep outputMap) ([], [])

/-! ## Specification-side helpers used only in theorem statements -/

/-- A record value with every field inert; used as the default of `List.getD`
at in-range indices (never actually returned there). -/
def defaultRecord : Record :=
  { sample_id := "", oil_hrs := Val.null, total_hrs := Val.null,
    viscosity_40 := Val.null, viscosity_100 := Val.null,
    viscosity_index := Val.null, tbn := Val.null, water_content := Val.null,
    flash_point := Val.null, fe_ppm := Val.null, cr_ppm := Val.null,
    si_ppm := Val.null, al_ppm := Val.null, pb_ppm := Val.null,
    cu_ppm := Val.null, sn_ppm := Val.null, ni_ppm := Val.null,
    oil_refill_start := 0, oil_topup := 0, health_score_lag_1 := 0,
    ml_raw_score := 0, gemini_final_score := 0, status := "", trend := "",
    recommendation := "", confidence := "", created_at := "", id := none }

/-- The sort key as the claim states it: the numeric total running hours,
with non-numeric or missing values treated as zero. -/
def specKeyQ (r : Record) : ℚ :=
  match r.total_hrs with
  | Val.float (PyFloat.fin q) => q
  | _ => 0

/-- The total running hours value is not a non-finite float (true of every
record the parser can produce: extracted tokens contain no `inf`/`nan`). -/
def finiteKey (r : Record) : Prop :=
  r.total_hrs ≠ Val.float PyFloat.pinf ∧ r.total_hrs ≠ Val.float PyFloat.ninf ∧
    r.total_hrs ≠ Val.float PyFloat.nan

/-- Erase the (re-assigned) `id` field for comparisons across the
serialization. -/
def clearId (r : Record) : Record := { r with id := none }

/-- A string ends with the fixed `" 10:00:00"` time suffix. -/
def endsWithTime (s : String) : Prop :=
  ∃ p : LC, s.data = p ++ " 10:00:00".data

/-- The exact claimed shape `YYYY-MM-DD 10:00:00` (4-digit year, 2-digit
month and day, fixed time). -/
def claimedStamp (s : String) : Bool :=
  match s.data with
  | [y1, y2, y3, y4, '-', m1, m2, '-', d1, d2, ' ', '1', '0', ':', '0', '0', ':', '0', '0'] =>
    y1.isDigit && y2.isDigit && y3.isDigit && y4.isDigit
      && m1.isDigit && m2.isDigit && d1.isDigit && d2.isDigit
  | _ => false

instance finiteKeyDecidable (r : Record) : Decidable (finiteKey r) :=
  inferInstanceAs (Decidable (r.total_hrs ≠ Val.float PyFloat.pinf ∧
    r.total_hrs ≠ Val.float PyFloat.ninf ∧ r.total_hrs ≠ Val.float PyFloat.nan))

/-- Concrete records used to witness the serialization theorem. -/
def recA5 : Record :=
  { defaultRecord with sample_id := "A", total_hrs := Val.float (PyFloat.fin 5) }

def recB2 : Record :=
  { defaultRecord with sample_id := "B", total_hrs := Val.float (PyFloat.fin 2) }

def recAx : Record :=
  { defaultRecord with sample_id := "A", total_hrs := Val.str "x" }

/-! # Theorems -/

/-- Inversion of a successful keyword attempt. -/
theorem attemptKeyword_eq_some {count : Nat} {text : LC} {kw : String}
    {out : List String} (h : attemptKeyword count text kw = some out) :
    ∃ e run, kwFind kw.data text = some e ∧ seqSearch (text.drop e) = some run ∧
      count ≤ (findallVal run).length ∧
      out = pyLastSlice count ((findallVal run).map String.mk) := by
  unfold attemptKeyword at h
  split at h
  · exact absurd h (by simp)
  next e he =>
    split at h
    · exact absurd h (by simp)
    next run hrun =>
      rw [List.length_map] at h
      split at h
      next hc =>
        exact ⟨e, run, he, hrun, hc, (Option.some.inj h).symm⟩
      · exact absurd h (by simp)

theorem pyLastSlice_length {α : Type} {count : Nat} {l : List α}
    (h0 : count ≠ 0) (h1 : count ≤ l.length) :
    (pyLastSlice count l).length = count := by
  unfold pyLastSlice
  rw [if_neg h0, List.length_drop]
  omega

/-- C5.  Every row returned by the extractor has exactly
`len(sample_ids)` entries, whatever the keywords and the post-block text
(failed extractions return the null-padded row of the same length). -/
theorem claim_C5_row_length (keywords sample_ids : List String) (text : LC)
    (h : sample_ids ≠ []) :
    (extract_row keywords sample_ids.length text).length = sample_ids.length := by
  have hpos : sample_ids.length ≠ 0 := by
    simpa [List.length_eq_zero] using h
  induction keywords with
  | nil => simp [extract_row]
  | cons kw rest ih =>
    unfold extract_row
    cases ha : attemptKeyword sample_ids.length text kw with
    | none => simpa using ih
    | some vals =>
      obtain ⟨e, run, _, _, hc, hv⟩ := attemptKeyword_eq_some ha
      simp only [List.length_map, hv]
      exact pyLastSlice_length hpos (by simpa using hc)

theorem claim_C5_row_length_witness :
    (["S/I-M1", "S/I-M2"] : List String) ≠ [] ∧
    (extract_row waterKeywords (["S/I-M1", "S/I-M2"] : List String).length
        "Water content 5".data).length = (["S/I-M1", "S/I-M2"] : List String).length :=
  ⟨by decide, claim_C5_row_length waterKeywords ["S/I-M1", "S/I-M2"] _ (by decide)⟩

/-- C2 (counterexample).  In `extract_row(['AA','BB'], 2)` on
`"AA 1 x BB 2 3"`, the candidate keyword `AA` matches and is followed by a
value run holding a single value token (fewer than `count = 2`), yet the
extractor does not return the all-null row: the loop falls through to the
later candidate `BB` and returns its values. -/
theorem claim_C2_counterexample :
    kwFind "AA".data "AA 1 x BB 2 3".data = some 2 ∧
    seqSearch ("AA 1 x BB 2 3".data.drop 2) = some " 1".data ∧
    (findallVal " 1".data).length = 1 ∧ 1 < 2 ∧
    extract_row ["AA", "BB"] 2 "AA 1 x BB 2 3".data = [some "2", some "3"] ∧
    extract_row ["AA", "BB"] 2 "AA 1 x BB 2 3".data ≠ List.replicate 2 none := by
  decide

/-- C2 (amended).  When every candidate keyword fails to produce a row —
it does not match, no value sequence follows it, or its value run holds
fewer than `count` value tokens — the extractor returns the all-null row of
length `count`; a partially filled or short row is never returned. -/
theorem claim_C2_all_null_row (keywords : List String) (count : Nat) (text : LC)
    (h : ∀ kw ∈ keywords, attemptKeyword count text kw = none) :
    extract_row keywords count text = List.replicate count none := by
  induction keywords with
  | nil => rfl
  | cons kw rest ih =>
    unfold extract_row
    rw [h kw (by simp)]
    exact ih (fun k hk => h k (by simp [hk]))

theorem claim_C2_all_null_row_witness :
    (∀ kw ∈ (["Oil Running Hrs", "Oil Running Hours"] : List String),
        attemptKeyword 2 "Oil Running Hrs 7".data kw = none) ∧
    extract_row ["Oil Running Hrs", "Oil Running Hours"] 2 "Oil Running Hrs 7".data
      = List.replicate 2 none :=
  ⟨by decide, claim_C2_all_null_row _ 2 _ (by decide)⟩

/-- C4.  When the first candidate keyword that matches the post-block text
(every earlier candidate fails to match) is followed by a first value run
holding at least `count` value tokens, the extractor returns exactly the
last `count` of those tokens, in order. -/
theorem claim_C4_last_values (pre : List String) (kw : String) (rest : List String)
    (count : Nat) (text : LC) (e : Nat) (run : LC)
    (hpre : ∀ k ∈ pre, kwFind k.data text = none)
    (he : kwFind kw.data text = some e)
    (hrun : seqSearch (text.drop e) = some run)
    (hcount : count ≤ (findallVal run).length) (hpos : 1 ≤ count) :
    extract_row (pre ++ kw :: rest) count text
      = (((findallVal run).map String.mk).drop
          ((findallVal run).length - count)).map some := by
  induction pre with
  | nil =>
    simp only [List.nil_append]
    unfold extract_row
    have ha : attemptKeyword count text kw
        = some (pyLastSlice count ((findallVal run).map String.mk)) := by
      simp only [attemptKeyword, he, hrun, List.length_map]
      rw [if_pos hcount]
    rw [ha]
    unfold pyLastSlice
    rw [if_neg (by omega)]
    simp
  | cons k pre' ih =>
    simp only [List.cons_append]
    unfold extract_row
    have hk : attemptKeyword count text k = none := by
      simp only [attemptKeyword, hpre k (by simp)]
    rw [hk]
    exact ih (fun k' hk' => hpre k' (by simp [hk']))

theorem claim_C4_last_values_witness :
    (∀ k ∈ (["Iron"] : List String), kwFind k.data "Fe 12 15".data = none) ∧
    kwFind "Fe".data "Fe 12 15".data = some 2 ∧
    seqSearch ("Fe 12 15".data.drop 2) = some " 12 15".data ∧
    1 ≤ (findallVal " 12 15".data).length ∧
    extract_row (["Iron"] ++ "Fe" :: []) 1 "Fe 12 15".data
      = (((findallVal " 12 15".data).map String.mk).drop
          ((findallVal " 12 15".data).length - 1)).map some :=
  ⟨by decide, by decide, by decide, by decide,
    claim_C4_last_values ["Iron"] "Fe" [] 1 "Fe 12 15".data 2 " 12 15".data
      (by decide) (by decide) (by decide) (by decide) (by decide)⟩

theorem map_range_getD {α : Type} (f : Nat → α) (n i : Nat) (d : α) (h : i < n) :
    ((List.range n).map f).getD i d = f i := by
  rw [List.getD_eq_getElem?_getD, List.getElem?_map, List.getElem?_range h]
  rfl

/-- C1 (counterexample).  In the block assembled from sample ids
`["S/I-M1"]` and post-block text `"Water content 0.3"`, the water-content
extractor returns the token `"0.3"`, and the assembled record stores it raw
(the Python string `"0.3"`), not its Section 4.5 normalization (the float
`0.3`): line 200 is the one parameter field not passed through
`parse_value`. -/
theorem claim_C1_water_counterexample :
    extract_row waterKeywords 1 "Water content 0.3".data = [some "0.3"] ∧
    ((parseBlock "x" ["S/I-M1"] "Water content 0.3".data).getD 0
        defaultRecord).water_content = Val.str "0.3" ∧
    parse_value (some "0.3") ≠ Val.str "0.3" ∧
    ((parseBlock "x" ["S/I-M1"] "Water content 0.3".data).getD 0
        defaultRecord).water_content ≠ parse_value (some "0.3") := by
  decide

/-- C1 (amended).  Every record assembled from a block holds, for every
tracked parameter except water content, the `parse_value` normalization of
its extracted token; `water_content` holds the raw extracted token (null
only when extraction produced none).  The record list has one record per
sample id, each carrying its sample id and the document timestamp. -/
theorem claim_C1_record_fields (c : String) (ids : List String) (t : LC) :
    (parseBlock c ids t).length = ids.length ∧
    ∀ i, i < ids.length →
      ((parseBlock c ids t).getD i defaultRecord).sample_id = ids.getD i "" ∧
      ((parseBlock c ids t).getD i defaultRecord).oil_hrs
        = parse_value ((extract_row oilRunningKeywords ids.length t).getD i none) ∧
      ((parseBlock c ids t).getD i defaultRecord).total_hrs
        = parse_value ((extract_row totalHrsKeywords ids.length t).getD i none) ∧
      ((parseBlock c ids t).getD i defaultRecord).viscosity_40
        = parse_value ((extract_row visc40Keywords ids.length t).getD i none) ∧
      ((parseBlock c ids t).getD i defaultRecord).viscosity_100
        = parse_value ((extract_row visc100Keywords ids.length t).getD i none) ∧
      ((parseBlock c ids t).getD i defaultRecord).viscosity_index
        = parse_value ((extract_row viscIndexKeywords ids.length t).getD i none) ∧
      ((parseBlock c ids t).getD i defaultRecord).tbn
        = parse_value ((extract_row tbnKeywords ids.length t).getD i none) ∧
      ((parseBlock c ids t).getD i defaultRecord).water_content
        = rawVal ((extract_row waterKeywords ids.length t).getD i none) ∧
      ((parseBlock c ids t).getD i defaultRecord).flash_point
        = parse_value ((extract_row flashKeywords ids.length t).getD i none) ∧
      ((parseBlock c ids t).getD i defaultRecord).fe_ppm
        = parse_value ((extract_row feKeywords ids.length t).getD i none) ∧
      ((parseBlock c ids t).getD i defaultRecord).cr_ppm
        = parse_value ((extract_row crKeywords ids.length t).getD i none) ∧
      ((parseBlock c ids t).getD i defaultRecord).si_ppm
        = parse_value ((extract_row siKeywords ids.length t).getD i none) ∧
      ((parseBlock c ids t).getD i defaultRecord).al_ppm
        = parse_value ((extract_row alKeywords ids.length t).getD i none) ∧
      ((parseBlock c ids t).getD i defaultRecord).pb_ppm
        = parse_value ((extract_row pbKeywords ids.length t).getD i none) ∧
      ((parseBlock c ids t).getD i defaultRecord).cu_ppm
        = parse_value ((extract_row cuKeywords ids.length t).getD i none) ∧
      ((parseBlock c ids t).getD i defaultRecord).sn_ppm
        = parse_value ((extract_row snKeywords ids.length t).getD i none) ∧
      ((parseBlock c ids t).getD i defaultRecord).ni_ppm
        = parse_value ((extract_row niKeywords ids.length t).getD i none) ∧
      ((parseBlock c ids t).getD i defaultRecord).created_at = c := by
  constructor
  · simp [parseBlock]
  · intro i hi
    simp only [parseBlock]
    rw [map_range_getD _ _ _ _ hi]
    exact ⟨rfl, rfl, rfl, rfl, rfl, rfl, rfl, rfl, rfl, rfl, rfl, rfl, rfl,
      rfl, rfl, rfl, rfl, rfl⟩

theorem claim_C1_record_fields_witness :
    0 < (["S/I-M1"] : List String).length ∧
    (((parseBlock "x" ["S/I-M1"] "Water content 0.3".data).getD 0
        defaultRecord).sample_id = (["S/I-M1"] : List String).getD 0 "" ∧
      ((parseBlock "x" ["S/I-M1"] "Water content 0.3".data).getD 0
        defaultRecord).oil_hrs
        = parse_value ((extract_row oilRunningKeywords
            (["S/I-M1"] : List String).length "Water content 0.3".data).getD 0 none) ∧
      ((parseBlock "x" ["S/I-M1"] "Water content 0.3".data).getD 0
        defaultRecord).total_hrs
        = parse_value ((extract_row totalHrsKeywords
            (["S/I-M1"] : List String).length "Water content 0.3".data).getD 0 none) ∧
      ((parseBlock "x" ["S/I-M1"] "Water content 0.3".data).getD 0
        defaultRecord).viscosity_40
        = parse_value ((extract_row visc40Keywords
            (["S/I-M1"] : List String).length "Water content 0.3".data).getD 0 none) ∧
      ((parseBlock "x" ["S/I-M1"] "Water content 0.3".data).getD 0
        defaultRecord).viscosity_100
        = parse_value ((extract_row visc100Keywords
            (["S/I-M1"] : List String).length "Water content 0.3".data).getD 0 none) ∧
      ((parseBlock "x" ["S/I-M1"] "Water content 0.3".data).getD 0
        defaultRecord).viscosity_index
        = parse_value ((extract_row viscIndexKeywords
            (["S/I-M1"] : List String).length "Water content 0.3".data).getD 0 none) ∧
      ((parseBlock "x" ["S/I-M1"] "Water content 0.3".data).getD 0
        defaultRecord).tbn
        = parse_value ((extract_row tbnKeywords
            (["S/I-M1"] : List String).length "Water content 0.3".data).getD 0 none) ∧
      ((parseBlock "x" ["S/I-M1"] "Water content 0.3".data).getD 0
        defaultRecord).water_content
        = rawVal ((extract_row waterKeywords
            (["S/I-M1"] : List String).length "Water content 0.3".data).getD 0 none) ∧
      ((parseBlock "x" ["S/I-M1"] "Water content 0.3".data).getD 0
        defaultRecord).flash_point
        = parse_value ((extract_row flashKeywords
            (["S/I-M1"] : List String).length "Water content 0.3".data).getD 0 none) ∧
      ((parseBlock "x" ["S/I-M1"] "Water content 0.3".data).getD 0
        defaultRecord).fe_ppm
        = parse_value ((extract_row feKeywords
            (["S/I-M1"] : List String).length "Water content 0.3".data).getD 0 none) ∧
      ((parseBlock "x" ["S/I-M1"] "Water content 0.3".data).getD 0
        defaultRecord).cr_ppm
        = parse_value ((extract_row crKeywords
            (["S/I-M1"] : List String).length "Water content 0.3".data).getD 0 none) ∧
      ((parseBlock "x" ["S/I-M1"] "Water content 0.3".data).getD 0
        defaultRecord).si_ppm
        = parse_value ((extract_row siKeywords
            (["S/I-M1"] : List String).length "Water content 0.3".data).getD 0 none) ∧
      ((parseBlock "x" ["S/I-M1"] "Water content 0.3".data).getD 0
        defaultRecord).al_ppm
        = parse_value ((extract_row alKeywords
            (["S/I-M1"] : List String).length "Water content 0.3".data).getD 0 none) ∧
      ((parseBlock "x" ["S/I-M1"] "Water content 0.3".data).getD 0
        defaultRecord).pb_ppm
        = parse_value ((extract_row pbKeywords
            (["S/I-M1"] : List String).length "Water content 0.3".data).getD 0 none) ∧
      ((parseBlock "x" ["S/I-M1"] "Water content 0.3".data).getD 0
        defaultRecord).cu_ppm
        = parse_value ((extract_row cuKeywords
            (["S/I-M1"] : List String).length "Water content 0.3".data).getD 0 none) ∧
      ((parseBlock "x" ["S/I-M1"] "Water content 0.3".data).getD 0
        defaultRecord).sn_ppm
        = parse_value ((extract_row snKeywords
            (["S/I-M1"] : List String).length "Water content 0.3".data).getD 0 none) ∧
      ((parseBlock "x" ["S/I-M1"] "Water content 0.3".data).getD 0
        defaultRecord).ni_ppm
        = parse_value ((extract_row niKeywords
            (["S/I-M1"] : List String).length "Water content 0.3".data).getD 0 none) ∧
      ((parseBlock "x" ["S/I-M1"] "Water content 0.3".data).getD 0
        defaultRecord).created_at = "x") :=
  ⟨by decide,
    (claim_C1_record_fields "x" ["S/I-M1"] "Water content 0.3".data).2 0 (by decide)⟩

theorem dropWhile_append_suffix (p : Char → Bool) (a b : LC) (c : Char)
    (hb : b.head? = some c) (hc : p c = false) :
    ∃ x, List.dropWhile p (a ++ b) = x ++ b := by
  induction a with
  | nil =>
    cases b with
    | nil => simp at hb
    | cons d r =>
      have hd : d = c := by simpa using hb
      refine ⟨[], ?_⟩
      rw [List.nil_append, List.dropWhile_cons, hd, hc]
      simp
  | cons d a' ih =>
    rw [List.cons_append, List.dropWhile_cons]
    by_cases hd : p d
    · simpa [hd] using ih
    · exact ⟨d :: a', by simp [hd]⟩

/-- `str.strip()` keeps any prefix made of non-whitespace characters. -/
theorem stripKeepsFront {pat l : LC} (hne : pat ≠ [])
    (hsp : ∀ c ∈ pat, isPySpace c = false) (h : pat.isPrefixOf l) :
    pat.isPrefixOf (pyStripLC l) := by
  obtain ⟨t, rfl⟩ := List.isPrefixOf_iff_prefix.mp h
  unfold pyStripLC
  obtain ⟨c, pat', rfl⟩ : ∃ c pat', pat = c :: pat' := by
    cases pat with
    | nil => exact absurd rfl hne
    | cons c p => exact ⟨c, p, rfl⟩
  have h1 : List.dropWhile isPySpace (c :: pat' ++ t) = (c :: pat') ++ t := by
    rw [List.cons_append, List.dropWhile_cons, hsp c (by simp)]
    simp
  rw [h1, List.reverse_append]
  obtain ⟨c', b', hb⟩ : ∃ c' b', (c :: pat').reverse = c' :: b' := by
    cases hh : (c :: pat').reverse with
    | nil => exact absurd hh (by simp)
    | cons x y => exact ⟨x, y, rfl⟩
  have hc' : isPySpace c' = false := by
    have hmem : c' ∈ (c :: pat') := by
      rw [← List.mem_reverse, hb]
      simp
    exact hsp c' hmem
  obtain ⟨x, hx⟩ := dropWhile_append_suffix isPySpace t.reverse (c :: pat').reverse c'
    (by rw [hb]; rfl) hc'
  rw [hx, List.reverse_append, List.reverse_reverse]
  exact List.isPrefixOf_iff_prefix.mpr ⟨x.reverse, rfl⟩

/-- A token whose first character is neither `N` nor `-` is not one of the
null tokens. -/
theorem nullTokens_contains_cons_false (c : Char) (u : LC)
    (h1 : c ≠ 'N') (h2 : c ≠ '-') :
    nullTokensU.contains (c :: u) = false := by
  rw [Bool.eq_false_iff]
  intro hcontains
  have hmem : (c :: u) ∈ nullTokensU := by
    simpa [List.contains] using hcontains
  simp only [nullTokensU, List.mem_cons, List.not_mem_nil, or_false] at hmem
  rcases hmem with h | h | h | h | h <;>
    first
    | exact h1 (List.head_eq_of_cons_eq h)
    | exact h2 (List.head_eq_of_cons_eq h)
    | exact List.noConfusion h

/-- C6 (counterexample).  A token with surrounding whitespace whose body
fails float parsing is not passed through unchanged: `parse_value(" x ")`
returns the stripped string `"x"`, not the original `" x "` (the function
re-assigns `val = val.strip()` before returning it). -/
theorem claim_C6_counterexample :
    pyFloatChars (removeCommasLC (pyStripLC " x ".data)) = none ∧
    parse_value (some " x ") = Val.str "x" ∧
    parse_value (some " x ") ≠ Val.str " x " := by
  decide

/-- C6 (amended).  The value normalizer: (1) any token starting with `<` or
`&lt;` maps to `0.5`; (2) any token that strips and upper-cases to `N/A`,
`N/C`, `N/I`, `-` or the empty string maps to null; (3) `"1,234.5"` maps to
the float `1234.5` (thousands-separators removed); (4) any other token whose
comma-stripped body fails float parsing is returned as the
whitespace-stripped original string, without raising; (5) in particular it is
returned completely unchanged whenever it carries no surrounding
whitespace. -/
theorem claim_C6_normalizer :
    (∀ s : String, ("<".data.isPrefixOf s.data ∨ "&lt;".data.isPrefixOf s.data) →
        parse_value (some s) = Val.float (PyFloat.fin (1 / 2))) ∧
    (∀ s : String, pyUpperLC (pyStripLC s.data) ∈ nullTokensU →
        parse_value (some s) = Val.null) ∧
    parse_value (some "1,234.5") = Val.float (PyFloat.fin 1234.5) ∧
    (∀ s : String, nullTokensU.contains (pyUpperLC (pyStripLC s.data)) = false →
        "<".data.isPrefixOf (pyStripLC s.data) = false →
        "&lt;".data.isPrefixOf (pyStripLC s.data) = false →
        pyFloatChars (removeCommasLC (pyStripLC s.data)) = none →
        parse_value (some s) = Val.str (String.mk (pyStripLC s.data))) ∧
    (∀ s : String, nullTokensU.contains (pyUpperLC (pyStripLC s.data)) = false →
        "<".data.isPrefixOf (pyStripLC s.data) = false →
        "&lt;".data.isPrefixOf (pyStripLC s.data) = false →
        pyFloatChars (removeCommasLC (pyStripLC s.data)) = none →
        pyStripLC s.data = s.data →
        parse_value (some s) = Val.str s) := by
  have hccon : ∀ s : String,
      ("<".data.isPrefixOf (pyStripLC s.data) ∨ "&lt;".data.isPrefixOf (pyStripLC s.data)) →
      nullTokensU.contains (pyUpperLC (pyStripLC s.data)) = false := by
    intro s hk
    have hhead : ∃ u, pyStripLC s.data = '<' :: u ∨ pyStripLC s.data = '&' :: u := by
      rcases hk with h | h
      · obtain ⟨t, ht⟩ := List.isPrefixOf_iff_prefix.mp h
        exact ⟨t, Or.inl ht.symm⟩
      · obtain ⟨t, ht⟩ := List.isPrefixOf_iff_prefix.mp h
        exact ⟨'l' :: 't' :: ';' :: t, Or.inr ht.symm⟩
    obtain ⟨u, hu | hu⟩ := hhead <;> rw [hu]
    · show nullTokensU.contains (pyUpperLC ('<' :: u)) = false
      have hmap : pyUpperLC ('<' :: u) = '<' :: pyUpperLC u := by
        simp [pyUpperLC]
      rw [hmap]
      exact nullTokens_contains_cons_false _ _ (by decide) (by decide)
    · show nullTokensU.contains (pyUpperLC ('&' :: u)) = false
      have hmap : pyUpperLC ('&' :: u) = '&' :: pyUpperLC u := by
        simp [pyUpperLC]
      rw [hmap]
      exact nullTokens_contains_cons_false _ _ (by decide) (by decide)
  have hpass : ∀ s : String, nullTokensU.contains (pyUpperLC (pyStripLC s.data)) = false →
      "<".data.isPrefixOf (pyStripLC s.data) = false →
      "&lt;".data.isPrefixOf (pyStripLC s.data) = false →
      pyFloatChars (removeCommasLC (pyStripLC s.data)) = none →
      parse_value (some s) = Val.str (String.mk (pyStripLC s.data)) := by
    intro s hcon hp1 hp2 hfl
    have hsne : s ≠ "" := by
      intro he
      subst he
      exact absurd hcon (by decide)
    simp only [parse_value, if_neg hsne, hcon, hp1, hp2, hfl]
    simp
  refine ⟨?_, ?_, ?_, ?_, ?_⟩
  · intro s hpre
    have hsne : s ≠ "" := by
      intro he
      subst he
      rcases hpre with h | h <;> simp [List.isPrefixOf] at h
    have hkeep : "<".data.isPrefixOf (pyStripLC s.data)
        ∨ "&lt;".data.isPrefixOf (pyStripLC s.data) := by
      rcases hpre with h | h
      · exact Or.inl (stripKeepsFront (by decide) (by decide) h)
      · exact Or.inr (stripKeepsFront (by decide) (by decide) h)
    have hcon := hccon s hkeep
    have hor : ("<".data.isPrefixOf (pyStripLC s.data)
        || "&lt;".data.isPrefixOf (pyStripLC s.data)) = true := by
      rcases hkeep with h | h <;> simp [h]
    simp only [parse_value, if_neg hsne, hcon, hor]
    simp
  · intro s hmem
    by_cases hsne : s = ""
    · subst hsne
      rfl
    · have hcon : nullTokensU.contains (pyUpperLC (pyStripLC s.data)) = true := by
        simpa [List.contains] using hmem
      simp only [parse_value, if_neg hsne, hcon]
      simp
  · have h1 : parse_value (some "1,234.5")
        = Val.float (PyFloat.fin (pyFloatOfParts false 1234 5 1 false 0)) := rfl
    have h2 : pyFloatOfParts false 1234 5 1 false 0 = 1234.5 := by
      norm_num [pyFloatOfParts]
    rw [h1, h2]
  · intro s hcon hp1 hp2 hfl
    exact hpass s hcon hp1 hp2 hfl
  · intro s hcon hp1 hp2 hfl hid
    rw [hpass s hcon hp1 hp2 hfl, hid]

theorem claim_C6_normalizer_witness :
    parse_value (some "<3") = Val.float (PyFloat.fin (1 / 2)) ∧
    parse_value (some "n/a") = Val.null ∧
    parse_value (some "..") = Val.str ".." :=
  ⟨claim_C6_normalizer.1 "<3" (Or.inl (by decide)),
   claim_C6_normalizer.2.1 "n/a" (by decide),
   claim_C6_normalizer.2.2.2.2 ".." (by decide) (by decide) (by decide) (by decide)
     (by decide)⟩

theorem findSub_isPrefix {pat l : LC} {i : Nat} (h : findSub pat l = some i) :
    pat.isPrefixOf (l.drop i) := by
  induction l generalizing i with
  | nil =>
    unfold findSub at h
    split at h
    next he =>
      cases h
      have hp : pat = [] := by simpa [List.isEmpty_iff] using he
      rw [hp]
      simp
    next => cases h
  | cons c r ih =>
    unfold findSub at h
    split at h
    · cases h
      next hp => simpa using hp
    · cases hr : findSub pat r with
      | none => rw [hr] at h; cases h
      | some j =>
        rw [hr] at h
        cases h
        simpa using ih hr

theorem findSub_none {pat l : LC} (hne : pat ≠ []) (h : findSub pat l = none) :
    ∀ j, pat.isPrefixOf (l.drop j) = false := by
  induction l with
  | nil =>
    intro j
    rw [List.drop_nil]
    cases pat with
    | nil => exact absurd rfl hne
    | cons c p => rfl
  | cons c r ih =>
    unfold findSub at h
    split at h
    next hp => cases h
    next hp =>
      have hr : findSub pat r = none := by
        cases hq : findSub pat r with
        | none => rfl
        | some j => rw [hq] at h; cases h
      intro j
      cases j with
      | zero =>
        rw [List.drop_zero, Bool.eq_false_iff]
        intro hq
        exact hp hq
      | succ j' => simpa using ih hr j'

theorem containsSub_iff_exists {pat l : LC} (hne : pat ≠ []) :
    containsSub pat l = true ↔ ∃ i, occAt l pat i = true := by
  constructor
  · intro h
    unfold containsSub at h
    cases hf : findSub pat l with
    | none => rw [hf] at h; cases h
    | some i => exact ⟨i, findSub_isPrefix hf⟩
  · rintro ⟨i, hi⟩
    unfold containsSub
    cases hf : findSub pat l with
    | none => exact absurd hi (by simp [occAt, findSub_none hne hf i])
    | some j => rfl

theorem occAt_le_length {pat l : LC} {i : Nat} (hne : pat ≠ [])
    (h : occAt l pat i = true) : i ≤ l.length := by
  by_contra hlt
  have hd : l.drop i = [] := List.drop_eq_nil_of_le (by omega)
  rw [occAt, hd] at h
  cases pat with
  | nil => exact hne rfl
  | cons c p => cases h

theorem mem_occPositions {pat l : LC} {i : Nat} (hne : pat ≠ []) :
    i ∈ occPositions l pat ↔ occAt l pat i = true := by
  unfold occPositions
  rw [List.mem_filter, List.mem_range]
  constructor
  · exact fun h => h.2
  · intro h
    exact ⟨by have := occAt_le_length hne h; omega, h⟩

theorem containsSub_eq_not_isEmpty (pat l : LC) (hne : pat ≠ []) :
    containsSub pat l = !(occPositions l pat).isEmpty := by
  rw [Bool.eq_iff_iff]
  rw [containsSub_iff_exists hne]
  constructor
  · rintro ⟨i, hi⟩
    have hm : i ∈ occPositions l pat := (mem_occPositions hne).mpr hi
    have hne2 : occPositions l pat ≠ [] := by
      intro he
      rw [he] at hm
      cases hm
    simpa [List.isEmpty_iff] using hne2
  · intro h
    have hne2 : occPositions l pat ≠ [] := by
      simpa [List.isEmpty_iff] using h
    obtain ⟨i, hi⟩ := List.exists_mem_of_ne_nil _ hne2
    exact ⟨i, (mem_occPositions hne).mp hi⟩

theorem occAt_drop {pat l : LC} (k m : Nat) :
    occAt (l.drop k) pat m = occAt l pat (k + m) := by
  unfold occAt
  rw [List.drop_drop]

/-- Every result of `pySplitLastAux` (with adequate fuel) is the suffix after
the end of an occurrence of the separator (or the whole string), with no
occurrence inside it. -/
theorem pySplitLastAux_spec (pat : LC) (hne : pat ≠ []) :
    ∀ fuel l, l.length < fuel →
      ∃ k, pySplitLastAux fuel pat l = l.drop k ∧
        findSub pat (l.drop k) = none ∧
        (k = 0 ∨ ∃ j, k = j + pat.length ∧ occAt l pat j = true) := by
  intro fuel
  induction fuel with
  | zero => intro l hl; omega
  | succ fuel ih =>
    intro l hl
    unfold pySplitLastAux
    cases hf : findSub pat l with
    | none =>
      exact ⟨0, by simp, by simpa using hf, Or.inl rfl⟩
    | some i =>
      have hpat1 : 1 ≤ pat.length := by
        cases pat with
        | nil => exact absurd rfl hne
        | cons c p => simp
      have hip : i + pat.length ≤ l.length := by
        have hp := findSub_isPrefix hf
        have hle := (List.isPrefixOf_iff_prefix.mp hp).length_le
        rw [List.length_drop] at hle
        omega
      have hlen : (l.drop (i + pat.length)).length < fuel := by
        rw [List.length_drop]
        omega
      obtain ⟨k', h1, h2, h3⟩ := ih (l.drop (i + pat.length)) hlen
      refine ⟨i + pat.length + k', ?_, ?_, ?_⟩
      · show pySplitLastAux fuel pat (l.drop (i + pat.length)) = _
        rw [h1, List.drop_drop]
      · rw [← List.drop_drop]
        exact h2
      · rcases h3 with h3 | ⟨j, hj, hocc⟩
        · subst h3
          exact Or.inr ⟨i, by omega, findSub_isPrefix hf⟩
        · refine Or.inr ⟨i + pat.length + j, by omega, ?_⟩
          rw [← occAt_drop]
          exact hocc

theorem pySplitLast_spec (pat l : LC) (hne : pat ≠ []) :
    ∃ k, pySplitLast pat l = l.drop k ∧
      findSub pat (l.drop k) = none ∧
      (k = 0 ∨ ∃ j, k = j + pat.length ∧ occAt l pat j = true) := by
  unfold pySplitLast
  rw [if_neg (by simpa [List.isEmpty_iff] using hne)]
  exact pySplitLastAux_spec pat hne (l.length + 1) l (by omega)

/-- Two occurrences of `PORT` cannot overlap (no proper self-overlap). -/
theorem port_no_overlap {l : LC} {i i' : Nat}
    (h1 : occAt l "PORT".data i = true) (h2 : occAt l "PORT".data i' = true)
    (hlt : i < i') (hclose : i' < i + 4) : False := by
  obtain ⟨t, ht⟩ := List.isPrefixOf_iff_prefix.mp h1
  obtain ⟨u, hu⟩ := List.isPrefixOf_iff_prefix.mp h2
  have hdd : l.drop i' = (l.drop i).drop (i' - i) := by
    rw [List.drop_drop]
    congr 1
    omega
  rw [hdd, ← ht] at hu
  have h14 : i' - i = 1 ∨ i' - i = 2 ∨ i' - i = 3 := by omega
  rcases h14 with hd | hd | hd <;> rw [hd] at hu
  · have hx : (("PORT".data ++ t).drop 1) = 'O' :: 'R' :: 'T' :: t := rfl
    rw [hx] at hu
    injection hu with hc _
    exact absurd hc (by decide)
  · have hx : (("PORT".data ++ t).drop 2) = 'R' :: 'T' :: t := rfl
    rw [hx] at hu
    injection hu with hc _
    exact absurd hc (by decide)
  · have hx : (("PORT".data ++ t).drop 3) = 'T' :: t := rfl
    rw [hx] at hu
    injection hu with hc _
    exact absurd hc (by decide)

/-- The source's Port condition — `'PORT' in pre` and no `'STBD'` in
`pre.split('PORT')[-1]` — coincides with the spec-side position-based test
(no STBD occurrence at or after the end of the last PORT occurrence). -/
theorem port_cond_eq (pre : LC) :
    (containsSub "PORT".data pre
      && !containsSub "STBD".data (pySplitLast "PORT".data pre))
    = specPortTest pre := by
  have hlen4 : ("PORT".data : LC).length = 4 := by decide
  rw [Bool.eq_iff_iff, Bool.and_eq_true, Bool.not_eq_true']
  unfold specPortTest
  rw [Bool.and_eq_true]
  constructor
  · rintro ⟨hP, hS⟩
    obtain ⟨k, hsplit, hnone, hkcl⟩ := pySplitLast_spec "PORT".data pre (by decide)
    rw [hsplit] at hS
    have hSTBD_lt : ∀ j, occAt pre "STBD".data j = true → j < k := by
      intro j hj
      by_contra hge
      have hocc : occAt (pre.drop k) "STBD".data (j - k) = true := by
        rw [occAt_drop]
        have he : k + (j - k) = j := by omega
        rw [he]
        exact hj
      have hcon : containsSub "STBD".data (pre.drop k) = true :=
        (containsSub_iff_exists (by decide)).mpr ⟨j - k, hocc⟩
      rw [hcon] at hS
      cases hS
    refine ⟨?_, ?_⟩
    · rw [← containsSub_eq_not_isEmpty _ _ (by decide)]
      exact hP
    · rw [List.all_eq_true]
      intro j hj
      have hjocc := (mem_occPositions (by decide)).mp hj
      have hjk := hSTBD_lt j hjocc
      rcases hkcl with rfl | ⟨j0, rfl, hocc0⟩
      · exact absurd hjk (by omega)
      · rw [List.any_eq_true]
        refine ⟨j0, (mem_occPositions (by decide)).mpr hocc0, ?_⟩
        simp only [decide_eq_true_eq]
        omega
  · rintro ⟨hPn, hall⟩
    have hP : containsSub "PORT".data pre = true := by
      rw [containsSub_eq_not_isEmpty _ _ (by decide)]
      exact hPn
    refine ⟨hP, ?_⟩
    obtain ⟨k, hsplit, hnone, hkcl⟩ := pySplitLast_spec "PORT".data pre (by decide)
    rw [hsplit]
    have hPORT_lt : ∀ i, occAt pre "PORT".data i = true → i < k := by
      intro i hi
      by_contra hge
      have h2 : occAt (pre.drop k) "PORT".data (i - k) = true := by
        rw [occAt_drop]
        have he : k + (i - k) = i := by omega
        rw [he]
        exact hi
      have h3 := @findSub_none "PORT".data (pre.drop k) (by decide) hnone (i - k)
      rw [occAt] at h2
      rw [h3] at h2
      cases h2
    rw [Bool.eq_false_iff]
    intro hScon
    obtain ⟨m, hm⟩ := (containsSub_iff_exists (by decide)).mp hScon
    have hj : occAt pre "STBD".data (k + m) = true := by
      rw [← occAt_drop]
      exact hm
    have hjmem := (mem_occPositions (by decide)).mpr hj
    have hany := (List.all_eq_true).mp hall (k + m) hjmem
    rw [List.any_eq_true] at hany
    obtain ⟨i, himem, hlt⟩ := hany
    have hiocc := (mem_occPositions (by decide)).mp himem
    have hik := hPORT_lt i hiocc
    have hlt' : k + m < i + 4 := by simpa using hlt
    rcases hkcl with rfl | ⟨j0, rfl, hocc0⟩
    · exact absurd hik (by omega)
    · by_cases hii : i ≤ j0
      · omega
      · exact port_no_overlap hocc0 hiocc (by omega) (by omega)

/-- C3.  Block classification: the code's `if/elif` chain over
`'keyword' in window` / `split` tests equals the spec-side classifier that
examines the occurrence positions in the joined upper-cased up-to-500-token
window and applies the fixed priority order: Port when `PORT` occurs with no
`STBD` after the last `PORT` occurrence, else Stbd on `STBD`/`STARBOARD`,
else No1 on a `NO 01` variant, else No2 on a `NO 02` variant, else Default
— exactly one category per block. -/
theorem claim_C3_classifier (tokens : List String) (b : Nat) :
    classifyBlock tokens b = specCategory (preWindow tokens b) := by
  have hcat : ∀ pre : LC, codeCategory pre = specCategory pre := by
    intro pre
    unfold codeCategory specCategory
    rw [port_cond_eq pre,
      containsSub_eq_not_isEmpty "STBD".data pre (by decide),
      containsSub_eq_not_isEmpty "STARBOARD".data pre (by decide),
      containsSub_eq_not_isEmpty "NO 01".data pre (by decide),
      containsSub_eq_not_isEmpty "NO.01".data pre (by decide),
      containsSub_eq_not_isEmpty "NO. 01".data pre (by decide),
      containsSub_eq_not_isEmpty "NO 02".data pre (by decide),
      containsSub_eq_not_isEmpty "NO.02".data pre (by decide),
      containsSub_eq_not_isEmpty "NO. 02".data pre (by decide)]
  exact hcat (preWindow tokens b)

/-- C10.  The classifier tests raw substring membership: whenever the
upper-cased window contains `PORT` at all — also when only inside a longer
word such as `SUPPORT` — with no `STBD` after the last occurrence, the block
is classified `Port` rather than `Default`. -/
theorem claim_C10_port_substring (tokens : List String) (b : Nat)
    (h : specPortTest (preWindow tokens b) = true) :
    classifyBlock tokens b = "Port" := by
  unfold classifyBlock codeCategory
  rw [port_cond_eq, h]
  rfl

theorem claim_C10_port_substring_witness :
    specPortTest (preWindow ["WE", "SUPPORT", "THIS"] 3) = true ∧
    classifyBlock ["WE", "SUPPORT", "THIS"] 3 = "Port" :=
  ⟨by decide, claim_C10_port_substring ["WE", "SUPPORT", "THIS"] 3 (by decide)⟩

/-- C7 (counterexample).  The date pattern accepts 3-digit years
(`\d{2,4}`), which are neither 2-digit (so not widened with "20") nor
4-digit: the header `"Date: 1 Jul 202"` yields `"202-07-01 10:00:00"`,
which is not of the claimed `YYYY-MM-DD HH:MM:SS` shape. -/
theorem claim_C7_counterexample :
    extractCreatedAt "Date: 1 Jul 202" = "202-07-01 10:00:00" ∧
    claimedStamp "202-07-01 10:00:00" = false := by
  decide

/-- C7 (amended).  The extractor always returns a single
`year-month-day 10:00:00` string with the time fixed at 10:00:00 (the year
field is 4 digits whenever the matched year has 2 or 4 digits — 2-digit
years are prefixed with "20" — but a 3-digit year passes through).  A header
containing `Date of Sampling: 11 Jul 25` yields `2025-07-11 10:00:00`;
month abbreviations are matched case-insensitively; when no labeled date is
found, the first `D Mon Y` date in the first 1000 characters whose widened
year is at least 2023 is used. -/
theorem claim_C7_date_format :
    (∀ content : String, endsWithTime (extractCreatedAt content)) ∧
    extractCreatedAt "Date of Sampling: 11 Jul 25" = "2025-07-11 10:00:00" ∧
    extractCreatedAt "date of sampling - 3 dec 24" = "2024-12-03 10:00:00" ∧
    extractCreatedAt "Report 5 Mar 19 ship 7 Aug 2024 x" = "2024-08-07 10:00:00" := by
  have hp : ∀ d m y : LC, endsWithTime (parse_date_str d m y) := by
    intro d m y
    exact ⟨_, rfl⟩
  have hdot : ∀ g : DateGroups, endsWithTime (dotDateFormat g) := by
    intro g
    exact ⟨_, rfl⟩
  have hdefault : endsWithTime "2025-01-01 10:00:00" := ⟨"2025-01-01".data, by decide⟩
  have hfall : ∀ h : LC, endsWithTime (fallbackDate h) := by
    intro h
    unfold fallbackDate
    split
    · apply hp
    · exact hdefault
  refine ⟨?_, by decide, by decide, by decide⟩
  intro content
  simp only [extractCreatedAt]
  split
  · split
    · apply hp
    · split
      · apply hdot
      · apply hfall
  · apply hfall

theorem processFold_mono (om : List (String × String)) :
    ∀ (cats : List (String × List Record))
      (acc : List (String × List Record) × List String),
      acc.1 ⊆ (cats.foldl (processStep om) acc).1 ∧
      acc.2 ⊆ (cats.foldl (processStep om) acc).2 := by
  intro cats
  induction cats with
  | nil => intro acc; exact ⟨fun _ h => h, fun _ h => h⟩
  | cons q cats' ih =>
    intro acc
    rw [List.foldl_cons]
    have hstep : acc.1 ⊆ (processStep om acc q).1 ∧ acc.2 ⊆ (processStep om acc q).2 := by
      unfold processStep
      split
      · exact ⟨List.subset_append_left _ _, fun _ h => h⟩
      · exact ⟨fun _ h => h, List.subset_append_left _ _⟩
    exact ⟨hstep.1.trans (ih (processStep om acc q)).1,
      hstep.2.trans (ih (processStep om acc q)).2⟩

theorem processFold_mem (om : List (String × String)) (cat : String)
    (recs : List Record) :
    ∀ (cats : List (String × List Record))
      (acc : List (String × List Record) × List String),
      (cat, recs) ∈ cats →
      (∀ f, routeTarget om cat = some f →
        (f, serializeCategory recs) ∈ (cats.foldl (processStep om) acc).1) ∧
      (routeTarget om cat = none →
        cat ∈ (cats.foldl (processStep om) acc).2) := by
  intro cats
  induction cats with
  | nil => intro acc h; cases h
  | cons q cats' ih =>
    intro acc hmem
    rw [List.foldl_cons]
    rcases List.mem_cons.mp hmem with heq | htail
    · constructor
      · intro f hf
        apply (processFold_mono om cats' (processStep om acc q)).1
        rw [← heq]
        simp only [processStep, hf]
        exact List.mem_append_right _ (by simp)
      · intro hf
        apply (processFold_mono om cats' (processStep om acc q)).2
        rw [← heq]
        simp only [processStep, hf]
        exact List.mem_append_right _ (by simp)
    · exact ih (processStep om acc q) htail

/-- C9.  A discovered category with no entry in the output-file mapping
falls back to the `Default` mapping: when a (truthy) Default file is
present, the category's serialized records are written to it; otherwise the
category is named in a warning and its records are dropped — no error is
raised (the loop is total and continues either way). -/
theorem claim_C9_fallback (outputMap : List (String × String))
    (cats : List (String × List Record)) (cat : String) (recs : List Record)
    (hmem : (cat, recs) ∈ cats)
    (hnone : pyGet outputMap cat = none) :
    (pyTruthy (pyGet outputMap "Default") = true →
      ∃ f, pyGet outputMap "Default" = some f ∧
        (f, serializeCategory recs) ∈ (processCategorized outputMap cats).1) ∧
    (pyTruthy (pyGet outputMap "Default") = false →
      cat ∈ (processCategorized outputMap cats).2) := by
  constructor
  · intro htruthy
    obtain ⟨f, hf⟩ : ∃ f, pyGet outputMap "Default" = some f := by
      cases hd : pyGet outputMap "Default" with
      | none => rw [hd] at htruthy; cases htruthy
      | some f => exact ⟨f, rfl⟩
    have hroute : routeTarget outputMap cat = some f := by
      rw [hf] at htruthy
      have hfne : ¬ f = "" := by simpa [pyTruthy] using htruthy
      simp only [routeTarget, hnone, hf, pyTruthy]
      simp [hfne]
    exact ⟨f, hf, (processFold_mem outputMap cat recs cats ([], []) hmem).1 f hroute⟩
  · intro hfalsy
    have hroute : routeTarget outputMap cat = none := by
      simp only [routeTarget, hnone, pyTruthy]
      simp only [pyTruthy] at hfalsy
      simp [hfalsy]
    exact (processFold_mem outputMap cat recs cats ([], []) hmem).2 hroute

theorem claim_C9_fallback_witness :
    (("Stbd", ([] : List Record)) ∈ ([("Stbd", ([] : List Record))] :
        List (String × List Record))) ∧
    pyGet [("Default", "d.json")] "Stbd" = none ∧
    ((pyTruthy (pyGet [("Default", "d.json")] "Default") = true →
      ∃ f, pyGet [("Default", "d.json")] "Default" = some f ∧
        (f, serializeCategory []) ∈
          (processCategorized [("Default", "d.json")] [("Stbd", [])]).1) ∧
    (pyTruthy (pyGet [("Default", "d.json")] "Default") = false →
      "Stbd" ∈ (processCategorized [("Default", "d.json")] [("Stbd", [])]).2)) :=
  ⟨by decide, by decide,
    claim_C9_fallback [("Default", "d.json")] [("Stbd", [])] "Stbd" []
      (by decide) (by decide)⟩

/-- Invariant of the `unique_records` dict build: keys are distinct and
non-empty, each entry's value carries its key as `sample_id`, is a member of
the input, and is exactly the last input record with that identifier; and
every input record with a truthy identifier has an entry. -/
theorem buildDict_inv (rs : List Record) :
    ((buildDict rs).map Prod.fst).Nodup ∧
    (∀ p ∈ buildDict rs, p.2.sample_id = p.1 ∧ p.1 ≠ "" ∧
      rs.reverse.find? (fun x => x.sample_id = p.1) = some p.2 ∧ p.2 ∈ rs) ∧
    (∀ r ∈ rs, r.sample_id ≠ "" → ∃ p ∈ buildDict rs, p.1 = r.sample_id) := by
  induction rs using List.reverseRecOn with
  | nil => exact ⟨List.nodup_nil, fun p hp => absurd hp (List.not_mem_nil p), fun r hr => absurd hr (List.not_mem_nil r)⟩
  | append_singleton rs x ih =>
    obtain ⟨ihnodup, ihmem, ihex⟩ := ih
    have hbd : buildDict (rs ++ [x])
        = if x.sample_id = "" then buildDict rs
          else dictInsert (buildDict rs) x.sample_id x := by
      unfold buildDict
      rw [List.foldl_append]
      rfl
    have hrev : (rs ++ [x]).reverse = x :: rs.reverse := by
      simp
    by_cases hx : x.sample_id = ""
    · rw [hbd, if_pos hx]
      refine ⟨ihnodup, ?_, ?_⟩
      · intro p hp
        obtain ⟨hsid, hne, hfind, hmem⟩ := ihmem p hp
        refine ⟨hsid, hne, ?_, List.mem_append_left _ hmem⟩
        rw [hrev, List.find?_cons_of_neg]
        · exact hfind
        · intro hc
          have hceq : x.sample_id = p.1 := by simpa using hc
          rw [hx] at hceq
          exact hne hceq.symm
      · intro r hr hrne
        rcases List.mem_append.mp hr with h | h
        · exact ihex r h hrne
        · have : r = x := by simpa using h
          rw [this] at hrne
          exact absurd hx hrne
    · rw [hbd, if_neg hx]
      by_cases hkey : (buildDict rs).any (fun p => p.1 = x.sample_id)
      · -- key present: in-place replacement
        have hrepl : dictInsert (buildDict rs) x.sample_id x
            = (buildDict rs).map
                (fun p => if p.1 = x.sample_id then (x.sample_id, x) else p) := by
          unfold dictInsert
          rw [if_pos hkey]
        have hkeys : ((buildDict rs).map
              (fun p => if p.1 = x.sample_id then (x.sample_id, x) else p)).map Prod.fst
            = (buildDict rs).map Prod.fst := by
          rw [List.map_map]
          apply List.map_congr_left
          intro p _
          by_cases hp : p.1 = x.sample_id
          · simp [hp]
          · simp [hp]
        refine ⟨?_, ?_, ?_⟩
        · rw [hrepl, hkeys]
          exact ihnodup
        · intro p hp
          rw [hrepl] at hp
          obtain ⟨q, hq, hpq⟩ := List.mem_map.mp hp
          by_cases hqk : q.1 = x.sample_id
          · rw [if_pos hqk] at hpq
            subst hpq
            refine ⟨rfl, hx, ?_, List.mem_append_right _ (by simp)⟩
            rw [hrev, List.find?_cons_of_pos]
            simp
          · rw [if_neg hqk] at hpq
            subst hpq
            obtain ⟨hsid, hne, hfind, hmem⟩ := ihmem q hq
            refine ⟨hsid, hne, ?_, List.mem_append_left _ hmem⟩
            rw [hrev, List.find?_cons_of_neg]
            · exact hfind
            · intro hc
              have hceq : x.sample_id = q.1 := by simpa using hc
              exact hqk hceq.symm
        · intro r hr hrne
          rcases List.mem_append.mp hr with h | h
          · obtain ⟨p, hp, hpk⟩ := ihex r h hrne
            refine ⟨(if p.1 = x.sample_id then (x.sample_id, x) else p), ?_, ?_⟩
            · rw [hrepl]
              exact List.mem_map.mpr ⟨p, hp, rfl⟩
            · by_cases hpx : p.1 = x.sample_id
              · rw [if_pos hpx, ← hpx, hpk]
              · rw [if_neg hpx]
                exact hpk
          · have hxr : r = x := by simpa using h
            obtain ⟨p, hp, hpk⟩ := List.any_eq_true.mp hkey
            have hpk' : p.1 = x.sample_id := by simpa using hpk
            refine ⟨(x.sample_id, x), ?_, by rw [hxr]⟩
            rw [hrepl]
            refine List.mem_map.mpr ⟨p, hp, ?_⟩
            rw [if_pos hpk']
      · -- new key: appended
        have happ : dictInsert (buildDict rs) x.sample_id x
            = buildDict rs ++ [(x.sample_id, x)] := by
          unfold dictInsert
          rw [if_neg hkey]
        have hnotin : x.sample_id ∉ (buildDict rs).map Prod.fst := by
          intro hmem
          obtain ⟨p, hp, hpk⟩ := List.mem_map.mp hmem
          exact absurd (List.any_eq_true.mpr ⟨p, hp, by simpa using hpk⟩) hkey
        refine ⟨?_, ?_, ?_⟩
        · rw [happ, List.map_append, List.nodup_append]
          refine ⟨ihnodup, List.nodup_singleton _, ?_⟩
          intro a ha hb
          have hax : a = x.sample_id := by simpa using hb
          rw [hax] at ha
          exact hnotin ha
        · intro p hp
          rw [happ] at hp
          rcases List.mem_append.mp hp with h | h
          · obtain ⟨hsid, hne, hfind, hmem⟩ := ihmem p h
            refine ⟨hsid, hne, ?_, List.mem_append_left _ hmem⟩
            rw [hrev, List.find?_cons_of_neg]
            · exact hfind
            · intro hc
              have hcx : x.sample_id = p.1 := by simpa using hc
              exact hnotin (by rw [hcx]; exact List.mem_map.mpr ⟨p, h, rfl⟩)
          · have hpx : p = (x.sample_id, x) := by simpa using h
            subst hpx
            refine ⟨rfl, hx, ?_, List.mem_append_right _ (by simp)⟩
            rw [hrev, List.find?_cons_of_pos]
            simp
        · intro r hr hrne
          rcases List.mem_append.mp hr with h | h
          · obtain ⟨p, hp, hpk⟩ := ihex r h hrne
            exact ⟨p, by rw [happ]; exact List.mem_append_left _ hp, hpk⟩
          · have hxr : r = x := by simpa using h
            subst hxr
            exact ⟨(r.sample_id, r), by rw [happ]; simp, rfl⟩

/-- Under a finite sort key the code's key equals the claim's key. -/
theorem get_sort_key_fin (r : Record) (h : finiteKey r) :
    get_sort_key r = PyFloat.fin (specKeyQ r) := by
  obtain ⟨h1, h2, h3⟩ := h
  unfold get_sort_key specKeyQ
  cases hth : r.total_hrs with
  | null => rfl
  | str s => rfl
  | float f =>
    cases f with
    | fin q => rfl
    | pinf => exact absurd hth h1
    | ninf => exact absurd hth h2
    | nan => exact absurd hth h3

theorem sortInsert_perm (a : Record) (l : List Record) :
    List.Perm (sortInsert a l) (a :: l) := by
  induction l with
  | nil => exact List.Perm.refl _
  | cons b l' ih =>
    unfold sortInsert
    split
    · exact List.Perm.refl _
    · exact (List.Perm.cons b ih).trans (List.Perm.swap a b l')

theorem pySort_perm (l : List Record) : List.Perm (pySort l) l := by
  have haux : ∀ (l acc : List Record),
      List.Perm (l.foldl (fun acc r => sortInsert r acc) acc) (acc ++ l) := by
    intro l
    induction l with
    | nil => intro acc; simp
    | cons r l' ih =>
      intro acc
      rw [List.foldl_cons]
      have h1 := ih (sortInsert r acc)
      have h2 : List.Perm (sortInsert r acc ++ l') ((r :: acc) ++ l') :=
        (sortInsert_perm r acc).append_right l'
      have h3 : List.Perm ((r :: acc) ++ l') (acc ++ r :: l') := List.perm_middle.symm
      exact (h1.trans h2).trans h3
  simpa using haux l []

theorem sortInsert_chain (a : Record) (l : List Record)
    (ha : finiteKey a) (hl : ∀ r ∈ l, finiteKey r)
    (hc : List.Chain' (fun x y => specKeyQ x ≤ specKeyQ y) l) :
    List.Chain' (fun x y => specKeyQ x ≤ specKeyQ y) (sortInsert a l) := by
  induction l with
  | nil => simp [sortInsert]
  | cons b l' ih =>
    have hb : finiteKey b := hl b (by simp)
    unfold sortInsert
    by_cases hab : pfLT (get_sort_key a) (get_sort_key b)
    · rw [if_pos hab]
      rw [get_sort_key_fin a ha, get_sort_key_fin b hb] at hab
      have hlt : specKeyQ a < specKeyQ b := by simpa [pfLT] using hab
      exact List.Chain'.cons (le_of_lt hlt) hc
    · rw [if_neg hab]
      rw [get_sort_key_fin a ha, get_sort_key_fin b hb] at hab
      have hge : specKeyQ b ≤ specKeyQ a := by
        have := fun hq => hab (by simpa [pfLT] using hq)
        exact le_of_not_lt this
      have htail := ih (fun r hr => hl r (by simp [hr])) (hc.tail)
      rw [List.chain'_cons']
      refine ⟨?_, htail⟩
      intro y hy
      cases l' with
      | nil =>
        have hya : a = y := by simpa [sortInsert] using hy
        rw [← hya]
        exact hge
      | cons c l'' =>
        by_cases hac : pfLT (get_sort_key a) (get_sort_key c)
        · have hya : a = y := by
            simp only [sortInsert, if_pos hac] at hy
            simpa using hy
          rw [← hya]
          exact hge
        · have hyc : c = y := by
            simp only [sortInsert, if_neg hac] at hy
            simpa using hy
          rw [← hyc]
          exact (List.chain'_cons.mp hc).1

theorem pySort_chain (l : List Record) (hfin : ∀ r ∈ l, finiteKey r) :
    List.Chain' (fun x y => specKeyQ x ≤ specKeyQ y) (pySort l) := by
  have haux : ∀ (l acc : List Record), (∀ r ∈ l, finiteKey r) →
      (∀ r ∈ acc, finiteKey r) →
      List.Chain' (fun x y => specKeyQ x ≤ specKeyQ y) acc →
      List.Chain' (fun x y => specKeyQ x ≤ specKeyQ y)
        (l.foldl (fun acc r => sortInsert r acc) acc) := by
    intro l
    induction l with
    | nil => intro acc _ _ hch; simpa using hch
    | cons r l' ih =>
      intro acc hlf haf hch
      rw [List.foldl_cons]
      refine ih (sortInsert r acc) (fun q hq => hlf q (by simp [hq])) ?_ ?_
      · intro q hq
        have := (sortInsert_perm r acc).mem_iff.mp hq
        rcases List.mem_cons.mp this with h | h
        · rw [h]; exact hlf r (by simp)
        · exact haf q h
      · exact sortInsert_chain r acc (hlf r (by simp)) haf hch
  exact haux l [] hfin (fun r hr => absurd hr (List.not_mem_nil r)) (by simp)

theorem assignIds_map_clearId (i : Nat) (l : List Record) :
    (assignIds i l).map clearId = l.map clearId := by
  induction l generalizing i with
  | nil => rfl
  | cons r l' ih =>
    unfold assignIds
    rw [List.map_cons, List.map_cons, ih]
    rfl

theorem assignIds_map_sid (i : Nat) (l : List Record) :
    (assignIds i l).map Record.sample_id = l.map Record.sample_id := by
  induction l generalizing i with
  | nil => rfl
  | cons r l' ih =>
    unfold assignIds
    rw [List.map_cons, List.map_cons, ih]

theorem assignIds_map_key (i : Nat) (l : List Record) :
    (assignIds i l).map specKeyQ = l.map specKeyQ := by
  induction l generalizing i with
  | nil => rfl
  | cons r l' ih =>
    unfold assignIds
    rw [List.map_cons, List.map_cons, ih]
    rfl

theorem assignIds_length (i : Nat) (l : List Record) :
    (assignIds i l).length = l.length := by
  induction l generalizing i with
  | nil => rfl
  | cons r l' ih =>
    unfold assignIds
    rw [List.length_cons, List.length_cons, ih]

theorem assignIds_map_id (i : Nat) (l : List Record) :
    (assignIds i l).map Record.id
      = (List.range l.length).map (fun j => some (i + j + 1)) := by
  induction l generalizing i with
  | nil => rfl
  | cons r l' ih =>
    unfold assignIds
    rw [List.map_cons, ih (i + 1), List.length_cons, List.range_succ_eq_map,
      List.map_cons, List.map_map]
    refine congrArg₂ _ rfl ?_
    apply List.map_congr_left
    intro j _
    simp only [Function.comp_apply]
    congr 1
    omega

/-- `clearId` is the identity on records carrying no id. -/
theorem clearId_of_id_none {r : Record} (h : r.id = none) : clearId r = r := by
  unfold clearId
  rw [← h]

/-- C8.  For every category written to an output file, the serialized list
is the input deduplicated by sample identifier keeping the last-seen
occurrence (every output record is exactly the last input record with its
identifier, every input identifier is represented, and no identifier
repeats), sorted ascending by the total-running-hours value with
non-numeric or missing values treated as zero, and carrying a gap-free
ascending `id` sequence starting at 1.  (Hypotheses: the records come from
the parser, so ids are unset, identifiers are non-empty, and the sort keys
are finite.) -/
theorem claim_C8_serialization (rs : List Record)
    (h0 : ∀ r ∈ rs, r.id = none)
    (h1 : ∀ r ∈ rs, r.sample_id ≠ "")
    (h2 : ∀ r ∈ rs, finiteKey r) :
    (∀ r ∈ serializeCategory rs,
      rs.reverse.find? (fun x => x.sample_id = r.sample_id) = some (clearId r)) ∧
    (∀ r ∈ rs, ∃ r' ∈ serializeCategory rs, r'.sample_id = r.sample_id) ∧
    ((serializeCategory rs).map Record.sample_id).Nodup ∧
    List.Chain' (fun a b => specKeyQ a ≤ specKeyQ b) (serializeCategory rs) ∧
    (serializeCategory rs).map Record.id
      = (List.range (serializeCategory rs).length).map (fun j => some (j + 1)) := by
  obtain ⟨hnodup, hmem, hex⟩ := buildDict_inv rs
  have hv_sid : ∀ v ∈ uniqueBySid rs, v.sample_id ≠ "" ∧
      rs.reverse.find? (fun x => x.sample_id = v.sample_id) = some v ∧ v ∈ rs := by
    intro v hv
    obtain ⟨p, hp, hpv⟩ := List.mem_map.mp hv
    obtain ⟨hsid, hne, hfind, hmemr⟩ := hmem p hp
    subst hpv
    refine ⟨by rw [hsid]; exact hne, ?_, hmemr⟩
    rw [hsid]
    exact hfind
  have hv_keys : (uniqueBySid rs).map Record.sample_id
      = (buildDict rs).map Prod.fst := by
    unfold uniqueBySid
    rw [List.map_map]
    apply List.map_congr_left
    intro p hp
    exact (hmem p hp).1
  have hv_nodup : ((uniqueBySid rs).map Record.sample_id).Nodup := by
    rw [hv_keys]
    exact hnodup
  have hv_fin : ∀ v ∈ uniqueBySid rs, finiteKey v := fun v hv =>
    h2 v (hv_sid v hv).2.2
  have hperm := pySort_perm (uniqueBySid rs)
  have hs_chain := pySort_chain (uniqueBySid rs) hv_fin
  have hout_def : serializeCategory rs = assignIds 0 (pySort (uniqueBySid rs)) := rfl
  refine ⟨?_, ?_, ?_, ?_, ?_⟩
  · intro r hr
    have hr' : r ∈ assignIds 0 (pySort (uniqueBySid rs)) := hr
    have hcl : clearId r ∈ (pySort (uniqueBySid rs)).map clearId := by
      rw [← assignIds_map_clearId 0]
      exact List.mem_map.mpr ⟨r, hr', rfl⟩
    obtain ⟨v, hvmem, hvcl⟩ := List.mem_map.mp hcl
    have hv := hperm.mem_iff.mp hvmem
    obtain ⟨hne, hfind, hmemr⟩ := hv_sid v hv
    have hveq : clearId v = v := clearId_of_id_none (h0 v hmemr)
    have hsid_eq : v.sample_id = r.sample_id := by
      have hc := congrArg Record.sample_id hvcl
      simpa [clearId] using hc
    rw [← hsid_eq, hfind, ← hvcl, hveq]
  · intro r hr
    obtain ⟨p, hp, hpk⟩ := hex r hr (h1 r hr)
    have hvv : p.2 ∈ uniqueBySid rs := List.mem_map.mpr ⟨p, hp, rfl⟩
    have hv2 : p.2 ∈ pySort (uniqueBySid rs) := hperm.mem_iff.mpr hvv
    have hsid : p.2.sample_id ∈ (serializeCategory rs).map Record.sample_id := by
      rw [hout_def, assignIds_map_sid]
      exact List.mem_map.mpr ⟨p.2, hv2, rfl⟩
    obtain ⟨r', hr', hr'eq⟩ := List.mem_map.mp hsid
    refine ⟨r', hr', ?_⟩
    rw [hr'eq, (hmem p hp).1, hpk]
  · rw [hout_def, assignIds_map_sid]
    exact ((hperm.map Record.sample_id).nodup_iff).mpr hv_nodup
  · have hq : List.Chain' (fun (x y : ℚ) => x ≤ y)
        ((serializeCategory rs).map specKeyQ) := by
      rw [hout_def, assignIds_map_key]
      exact (List.chain'_map specKeyQ).mpr hs_chain
    exact (List.chain'_map specKeyQ).mp hq
  · rw [hout_def, assignIds_map_id, assignIds_length]
    apply List.map_congr_left
    intro j _
    congr 1
    omega

theorem claim_C8_serialization_witness :
    (∀ r ∈ [recA5, recB2, recAx], r.id = none) ∧
    (∀ r ∈ [recA5, recB2, recAx], r.sample_id ≠ "") ∧
    (∀ r ∈ [recA5, recB2, recAx], finiteKey r) ∧
    (serializeCategory [recA5, recB2, recAx]).map Record.id
      = (List.range (serializeCategory [recA5, recB2, recAx]).length).map
          (fun j => some (j + 1)) :=
  ⟨by decide, by decide, by decide,
    (claim_C8_serialization [recA5, recB2, recAx]
      (by decide) (by decide) (by decide)).2.2.2.2⟩
